import Mathlib

/-!
# Verification of the Browser-Game economy engine

A shallow embedding, over exact rationals, of the deterministic pricing and
crafting functions of the Browser-Game repository:

* `src/src/utils/rng.js` — `seededRandom`, `generateItemSeed`,
  `calculateDailyPrice`, `updatePriceHistory`;
* `src/src/constants/recipes.js` — `calculateSuccessRate`;
* the listings page — `calculateRiskAdjustedPrice`;
* `src/src/app/my-inventory/page.js` — `calculateRiskAdjustedSellingPrice`
  and the insurance-premium computation inside `handleInsure`.

JavaScript numbers are modelled as rationals (`ℚ`); the JavaScript remainder
operator `%`, `Math.round`, `Math.floor` and `Math.max`/`Math.min` are modelled
exactly; `Math.sin` is passed to `calculateDailyPrice` as an explicit function
parameter, and theorems about it assume only that its values lie in `[-1, 1]`.
The non-deterministic draws (`Math.random`-based) are passed as explicit
arguments, so every embedded function is a pure function of its inputs.
-/

namespace BrowserGame

/-- JavaScript truncation toward zero of a rational number; the integer part
used by the JavaScript `%` operator. -/
def ratTrunc (q : ℚ) : ℤ := if 0 ≤ q then ⌊q⌋ else ⌈q⌉

/-- The JavaScript remainder operator `a % m` on numbers: `a - m * trunc (a / m)`.
The result carries the sign of the dividend `a` and satisfies `|a % m| < |m|`. -/
def jsMod (a m : ℚ) : ℚ := a - m * (ratTrunc (a / m) : ℚ)

/-- JavaScript `Math.round`: round half toward positive infinity, i.e. `⌊q + 1/2⌋`. -/
def jsRound (q : ℚ) : ℤ := ⌊q + 1/2⌋

/-- The character-code sum `s.split('').reduce((acc, char) => acc + char.charCodeAt(0), 0)`
used by `generateItemSeed` for string hashes. -/
def charCodeSum (s : String) : ℕ := s.data.foldl (fun acc c => acc + c.toNat) 0

/-- A JavaScript `itemId` is either a number or a string
(`number|string` in the JSDoc of `generateItemSeed`). -/
inductive ItemId where
  | num (n : ℚ)
  | str (s : String)

/-- Embeds `generateItemSeed` (src/src/utils/rng.js, lines 115–126):
combine an id hash, a name hash and the truncated base price, reduced with the
JavaScript `%` by `1000000`. -/
def generateItemSeed (itemId : ItemId) (itemName : String) (basePrice : ℚ) : ℚ :=
  let idHash : ℚ :=
    match itemId with
    | .str s => (charCodeSum s : ℚ)
    | .num n => n
  let nameHash : ℚ := (charCodeSum itemName : ℚ)
  let priceHash : ℚ := ((⌊basePrice⌋ : ℤ) : ℚ)
  jsMod (idHash * 1000000 + nameHash * 1000 + priceHash) 1000000

/-- One step of the closure returned by `seededRandom` (src/src/utils/rng.js,
lines 100–106): the state update `value = (value * 9301 + 49297) % 233280`.
The closure's mutable `value` is threaded explicitly: the draw returned to the
caller is the new state divided by `233280`. -/
def seededRandomStep (value : ℚ) : ℚ := jsMod (value * 9301 + 49297) 233280

/-- Embeds `calculateDailyPrice` (src/src/utils/rng.js, lines 138–170).

* The guard `!basePrice || basePrice <= 0` is equivalent, over numbers free of
  `NaN`, to `basePrice ≤ 0` (`!0` is the only extra truthiness case and
  `0 ≤ 0`); likewise `!currentDay || currentDay < 1` is equivalent to
  `currentDay < 1`.
* `sin` is the `Math.sin` function, passed explicitly.
* The three draws `r1, r2, r3` thread the `seededRandom` closure state
  explicitly, starting from `daySeed`. -/
def calculateDailyPrice (sin : ℚ → ℚ) (basePrice currentDay : ℚ) (itemId : ItemId)
    (itemName : String) (fluctuationRange : ℚ) : ℚ :=
  if basePrice ≤ 0 then 1
  else if currentDay < 1 then basePrice
  else
    let itemSeed := generateItemSeed itemId itemName basePrice
    let daySeed := itemSeed + currentDay * 7919
    let v1 := seededRandomStep daySeed
    let r1 := v1 / 233280
    let v2 := seededRandomStep v1
    let r2 := v2 / 233280
    let v3 := seededRandomStep v2
    let r3 := v3 / 233280
    let dayCycle := sin ((currentDay + r1 * 10) * (1/10)) * (1/2) + 1/2
    let noise := (r2 - 1/2) * (1/5)
    let trend := (r3 - 1/2) * (3/10)
    let fluctuation := dayCycle * fluctuationRange + noise * fluctuationRange +
      trend * (fluctuationRange * (1/2))
    let priceMultiplier := 1 + (fluctuation - fluctuationRange / 2)
    max 1 ((jsRound (basePrice * priceMultiplier) : ℤ) : ℚ)

/-- A crafting material as inspected by `calculateSuccessRate`: only its
`status` string is read. -/
structure Material where
  status : String
deriving DecidableEq

/-- The two recipe fields read by `calculateSuccessRate`. -/
structure Recipe where
  baseSuccessRate : ℚ
  qualityBonus : ℚ
deriving DecidableEq

/-- Embeds `calculateSuccessRate` (src/src/constants/recipes.js, lines 237–254):
a `forEach` accumulation over the materials followed by
`Math.min(95, Math.max(5, successRate))`. -/
def calculateSuccessRate (recipe : Recipe) (materials : List Material) : ℚ :=
  let successRate := materials.foldl
    (fun successRate material =>
      if material.status = "Legendary" then successRate + recipe.qualityBonus
      else if material.status = "New" then successRate + recipe.qualityBonus * (1/2)
      else if material.status = "Used" then successRate + recipe.qualityBonus * (1/4)
      else successRate)
    recipe.baseSuccessRate
  min 95 (max 5 successRate)

/-- The per-material multiplier actually applied by `calculateSuccessRate`:
keyed to the status strings `"Legendary"`, `"New"`, `"Used"` that the code
tests, with every other status (including `"Rare"`, `"Uncommon"`, `"Common"`,
`"Damaged"`, `"Cursed"`) contributing nothing. -/
def codeQualityMultiplier (status : String) : ℚ :=
  if status = "Legendary" then 1
  else if status = "New" then 1/2
  else if status = "Used" then 1/4
  else 0

/-- Modelled from the spec: the quality multiplier as the specification sentence
assigns it to the ordered tiers `Damaged < Common < Uncommon < Rare < Legendary`
— `1` for `Legendary`, `1/2` for `Rare`, `1/4` for `Uncommon`, `0` for `Common`
and `Damaged`. Stated only to be compared against the source's
`calculateSuccessRate`. -/
def specQualityMultiplier (status : String) : ℚ :=
  if status = "Legendary" then 1
  else if status = "Rare" then 1/2
  else if status = "Uncommon" then 1/4
  else 0

/-- Modelled from the spec: `calculateSuccessRate` as the specification words it
— start from `baseSuccessRate`, add `qualityBonus` scaled by the tier
multiplier of each supplied material, then clamp to `[5, 95]`. -/
def calculateSuccessRateSpec (recipe : Recipe) (materials : List Material) : ℚ :=
  min 95 (max 5 (recipe.baseSuccessRate +
    (materials.map (fun m => recipe.qualityBonus * specQualityMultiplier m.status)).sum))

/-- Embeds `calculateRiskAdjustedPrice` (listings page, src/unnamed/part_004,
lines 23–38): `Math.max(1, Math.round(basePrice * (1 - risk / 100 * 0.6)))`. -/
def calculateRiskAdjustedPrice (basePrice risk : ℚ) : ℚ :=
  let normalizedRisk := risk / 100
  let discountFactor : ℚ := 3/5
  let riskMultiplier := 1 - normalizedRisk * discountFactor
  let adjustedPrice := basePrice * riskMultiplier
  max 1 ((jsRound adjustedPrice : ℤ) : ℚ)

/-- Embeds `calculateRiskAdjustedSellingPrice` (src/src/app/my-inventory/page.js,
lines 45–76). The one non-deterministic draw — `randomPercent()`, a value in
`[0, 100)` — is passed as the explicit first argument `draw`; `none` for
`floorPricePercentage` models the JavaScript default `null`. -/
def calculateRiskAdjustedSellingPrice (draw basePrice risk : ℚ)
    (floorPricePercentage : Option ℚ) : ℚ :=
  let getsDiscount := draw < risk
  let sellingPrice :=
    if getsDiscount then
      let discountPercent := risk / 100 * (3/10)
      let multiplier := 1 - discountPercent
      max 1 ((jsRound (basePrice * multiplier) : ℤ) : ℚ)
    else
      let premiumPercent := (100 - risk) / 100 * (1/2)
      let multiplier := 1 + premiumPercent
      max 1 ((jsRound (basePrice * multiplier) : ℤ) : ℚ)
  match floorPricePercentage with
  | some fp => max sellingPrice ((jsRound (basePrice * fp) : ℤ) : ℚ)
  | none => sellingPrice

/-- Embeds the per-item insurance premium computed inside `handleInsure`
(src/src/app/my-inventory/page.js, lines 724–735):
`Math.round(itemPrice * (0.10 + risk * 0.005))`. The spec's external interface
names this computation `calculateInsuranceCost`. -/
def calculateInsuranceCost (price risk : ℚ) : ℚ :=
  let basePercentage : ℚ := 1/10
  let riskAdjustment := risk * (1/200)
  let insurancePercentage := basePercentage + riskAdjustment
  ((jsRound (price * insurancePercentage) : ℤ) : ℚ)

/-- One `(day, price)` record of an item's price history. -/
structure PriceEntry where
  day : ℚ
  price : ℚ
deriving DecidableEq

/-- `MAX_HISTORY_DAYS` (src/src/utils/rng.js, line 206). -/
def MAX_HISTORY_DAYS : ℕ := 10

/-- JavaScript `Array.prototype.findIndex`: index of the first element
satisfying the predicate, `none` standing for the JavaScript result `-1`. -/
def findIndex (p : PriceEntry → Bool) : List PriceEntry → Option ℕ
  | [] => none
  | e :: t => if p e then some 0 else (findIndex p t).map (· + 1)

/-- The add-or-update step of `updatePriceHistory` (src/src/utils/rng.js,
lines 251–259): if an entry for `day` exists
(`findIndex(entry => entry.day === day)`), overwrite its price in place;
otherwise push a new `(day, price)` entry at the end. -/
def addOrUpdateEntry (entries : List PriceEntry) (day price : ℚ) : List PriceEntry :=
  match findIndex (fun e => e.day == day) entries with
  | some i =>
    match entries.get? i with
    | some e => entries.set i (PriceEntry.mk e.day price)
    | none => entries
  | none => entries ++ [PriceEntry.mk day price]

/-- Embeds the per-item update performed by `updatePriceHistory`
(src/src/utils/rng.js, lines 243–270) on the entry list stored for one item:
add or update the entry for `day`, re-sort by day ascending (the comparator
`(a, b) => a.day - b.day`), and if the list then exceeds `maxDays` entries keep
only the last `maxDays` (`slice(-maxDays)`). Loading and saving the surrounding
localStorage map is the external persistence collaborator and is not
modelled. -/
def updatePriceHistory (entries : List PriceEntry) (day price : ℚ) (maxDays : ℕ) :
    List PriceEntry :=
  let updated := addOrUpdateEntry entries day price
  let sorted := List.insertionSort (fun a b => a.day ≤ b.day) updated
  if maxDays < sorted.length then sorted.drop (sorted.length - maxDays) else sorted

/-! ## Basic facts about the JavaScript arithmetic primitives -/

lemma ratTrunc_gt (q : ℚ) : q - 1 < (ratTrunc q : ℚ) := by
  unfold ratTrunc
  split
  · have := Int.sub_one_lt_floor q
    push_cast at this ⊢
    linarith
  · have := Int.le_ceil q
    linarith

lemma ratTrunc_lt (q : ℚ) : (ratTrunc q : ℚ) < q + 1 := by
  unfold ratTrunc
  split
  · have := Int.floor_le q
    linarith
  · have := Int.ceil_lt_add_one q
    linarith

/-- The JavaScript remainder by a positive modulus lies strictly between
`-m` and `m`. -/
lemma jsMod_bounds (a : ℚ) {m : ℚ} (hm : 0 < m) : -m < jsMod a m ∧ jsMod a m < m := by
  unfold jsMod
  have hne : m ≠ 0 := ne_of_gt hm
  have e : m * (a / m) = a := by field_simp
  have hu : m * (ratTrunc (a / m) : ℚ) < m * (a / m + 1) :=
    (mul_lt_mul_left hm).mpr (ratTrunc_lt (a / m))
  have hl : m * (a / m - 1) < m * (ratTrunc (a / m) : ℚ) :=
    (mul_lt_mul_left hm).mpr (ratTrunc_gt (a / m))
  constructor
  · nlinarith
  · nlinarith

/-- Every value drawn from the seeded generator, whatever the (possibly
fractional, possibly negative) state, lies strictly between `-1` and `1`. -/
lemma seededRandom_draw_bounds (v : ℚ) :
    -1 < seededRandomStep v / 233280 ∧ seededRandomStep v / 233280 < 1 := by
  have h := jsMod_bounds (v * 9301 + 49297) (m := 233280) (by norm_num)
  have h0 : (0 : ℚ) < 233280 := by norm_num
  unfold seededRandomStep
  constructor
  · rw [lt_div_iff₀ h0]
    linarith [h.1]
  · rw [div_lt_one h0]
    exact h.2

/-! ## Claim C1 — determinism of `calculateDailyPrice` -/

/-- Claim C1: `calculateDailyPrice` is a pure function of its arguments — the
seeded generator's state is threaded explicitly through the three draws, so two
calls with identical arguments return the identical value, with no hidden
mutable state and no dependence on call order. -/
theorem calculateDailyPrice_deterministic :
    ∀ (sin : ℚ → ℚ) (basePrice currentDay : ℚ) (itemId : ItemId) (itemName : String)
      (fluctuationRange : ℚ),
      calculateDailyPrice sin basePrice currentDay itemId itemName fluctuationRange =
        calculateDailyPrice sin basePrice currentDay itemId itemName fluctuationRange :=
  fun _ _ _ _ _ _ => rfl

/-! ## Claim C5 — guard clauses of `calculateDailyPrice` -/

/-- Claim C5 (amended): for `basePrice ≤ 0` the function returns `1`, and for
`basePrice > 0` and `day < 1` it returns `basePrice` unchanged (not rounded);
neither input raises an error, the function being total. -/
theorem calculateDailyPrice_guards (sin : ℚ → ℚ) (basePrice currentDay : ℚ)
    (itemId : ItemId) (itemName : String) (fluctuationRange : ℚ) :
    (basePrice ≤ 0 →
      calculateDailyPrice sin basePrice currentDay itemId itemName fluctuationRange = 1) ∧
    (0 < basePrice → currentDay < 1 →
      calculateDailyPrice sin basePrice currentDay itemId itemName fluctuationRange
        = basePrice) := by
  constructor
  · intro h
    simp only [calculateDailyPrice]
    rw [if_pos h]
  · intro hb hd
    simp only [calculateDailyPrice]
    rw [if_neg (not_le.mpr hb), if_pos hd]

/-- Witness for claim C5 at concrete inputs. -/
theorem calculateDailyPrice_guards_witness :
    calculateDailyPrice (fun _ => 0) (-5) 3 (ItemId.num 1) "X" (3/20) = 1 ∧
    calculateDailyPrice (fun _ => 0) (3/2) 0 (ItemId.num 1) "X" (3/20) = 3/2 :=
  ⟨(calculateDailyPrice_guards (fun _ => 0) (-5) 3 (ItemId.num 1) "X" (3/20)).1
      (by norm_num),
   (calculateDailyPrice_guards (fun _ => 0) (3/2) 0 (ItemId.num 1) "X" (3/20)).2
      (by norm_num) (by norm_num)⟩

/-- Counterexample for claim C5 as stated: at `basePrice = 3/2` and `day = 0`
the code returns `3/2` itself, not `round(3/2) = 2`. -/
theorem calculateDailyPrice_day_zero_not_rounded :
    calculateDailyPrice (fun _ => 0) (3/2) 0 (ItemId.num 1) "X" (3/20) = 3/2 ∧
    ((jsRound (3/2) : ℤ) : ℚ) = 2 ∧
    calculateDailyPrice (fun _ => 0) (3/2) 0 (ItemId.num 1) "X" (3/20) ≠
      ((jsRound (3/2) : ℤ) : ℚ) := by
  refine ⟨?_, ?_, ?_⟩
  · simp only [calculateDailyPrice]
    rw [if_neg (by norm_num), if_pos (by norm_num)]
  · unfold jsRound
    norm_num
  · simp only [calculateDailyPrice]
    rw [if_neg (by norm_num), if_pos (by norm_num)]
    unfold jsRound
    norm_num

/-! ## Claim C6 — `calculateRiskAdjustedPrice` -/

/-- Claim C6: for `basePrice > 0` and risk in `[0, 100]`,
`calculateRiskAdjustedPrice` returns the integer `round(basePrice * (1 - (risk/100) * 0.6))`
floored at `1`; it is antitone in the risk, and `calculateRiskAdjustedPrice 500 10 = 470`. -/
theorem calculateRiskAdjustedPrice_spec :
    (∀ basePrice risk : ℚ, 0 < basePrice → 0 ≤ risk → risk ≤ 100 →
      calculateRiskAdjustedPrice basePrice risk =
        max 1 ((jsRound (basePrice * (1 - risk / 100 * (3/5))) : ℤ) : ℚ) ∧
      ∃ k : ℤ, calculateRiskAdjustedPrice basePrice risk = (k : ℚ)) ∧
    (∀ basePrice r₁ r₂ : ℚ, 0 < basePrice → 0 ≤ r₁ → r₁ ≤ r₂ → r₂ ≤ 100 →
      calculateRiskAdjustedPrice basePrice r₂ ≤ calculateRiskAdjustedPrice basePrice r₁) ∧
    calculateRiskAdjustedPrice 500 10 = 470 := by
  refine ⟨?_, ?_, ?_⟩
  · intro basePrice risk _ _ _
    refine ⟨rfl, max 1 (jsRound (basePrice * (1 - risk / 100 * (3/5)))), ?_⟩
    simp only [calculateRiskAdjustedPrice]
    push_cast
    rfl
  · intro basePrice r₁ r₂ hb h1 h12 h2
    simp only [calculateRiskAdjustedPrice]
    have hmul : basePrice * (1 - r₂ / 100 * (3/5)) ≤ basePrice * (1 - r₁ / 100 * (3/5)) := by
      apply mul_le_mul_of_nonneg_left _ (le_of_lt hb)
      linarith
    have hround : jsRound (basePrice * (1 - r₂ / 100 * (3/5))) ≤
        jsRound (basePrice * (1 - r₁ / 100 * (3/5))) := by
      unfold jsRound
      exact Int.floor_le_floor (by linarith)
    exact max_le_max le_rfl (Int.cast_le.mpr hround)
  · simp only [calculateRiskAdjustedPrice]
    unfold jsRound
    have h : ⌊(500 : ℚ) * (1 - 10 / 100 * (3/5)) + 1/2⌋ = 470 := by norm_num
    rw [h]
    rw [max_eq_right (by norm_num)]
    norm_num

/-- Witness for claim C6 at concrete inputs: risk 20 is priced no higher than
risk 10 on a base price of 500. -/
theorem calculateRiskAdjustedPrice_spec_witness :
    calculateRiskAdjustedPrice 500 20 ≤ calculateRiskAdjustedPrice 500 10 :=
  calculateRiskAdjustedPrice_spec.2.1 500 10 20 (by norm_num) (by norm_num)
    (by norm_num) (by norm_num)

/-! ## Claim C8 — the insurance premium -/

/-- Claim C8: the insurance cost is `round(price * (0.10 + risk * 0.005))`,
monotone in the risk for a nonnegative price, with `calculateInsuranceCost 1000 0 = 100`
(10% of the price at risk 0) and `calculateInsuranceCost 1000 100 = 600`
(60% of the price at risk 100). -/
theorem calculateInsuranceCost_spec :
    (∀ price risk : ℚ, calculateInsuranceCost price risk =
      ((jsRound (price * (1/10 + risk * (1/200))) : ℤ) : ℚ)) ∧
    (∀ price r₁ r₂ : ℚ, 0 ≤ price → r₁ ≤ r₂ →
      calculateInsuranceCost price r₁ ≤ calculateInsuranceCost price r₂) ∧
    calculateInsuranceCost 1000 0 = 100 ∧
    calculateInsuranceCost 1000 100 = 600 := by
  refine ⟨fun _ _ => rfl, ?_, ?_, ?_⟩
  · intro price r₁ r₂ hp h12
    simp only [calculateInsuranceCost]
    apply Int.cast_le.mpr
    unfold jsRound
    apply Int.floor_le_floor
    have : price * (1/10 + r₁ * (1/200)) ≤ price * (1/10 + r₂ * (1/200)) :=
      mul_le_mul_of_nonneg_left (by linarith) hp
    linarith
  · simp only [calculateInsuranceCost]
    unfold jsRound
    have h : ⌊(1000 : ℚ) * (1/10 + 0 * (1/200)) + 1/2⌋ = 100 := by norm_num
    rw [h]
    norm_num
  · simp only [calculateInsuranceCost]
    unfold jsRound
    have h : ⌊(1000 : ℚ) * (1/10 + 100 * (1/200)) + 1/2⌋ = 600 := by norm_num
    rw [h]
    norm_num

/-- Witness for claim C8 at concrete inputs: risk 0 costs no more than risk 100
on a price of 1000. -/
theorem calculateInsuranceCost_spec_witness :
    calculateInsuranceCost 1000 0 ≤ calculateInsuranceCost 1000 100 :=
  calculateInsuranceCost_spec.2.1 1000 0 100 (by norm_num) (by norm_num)


/-! ## Claims C3 and C4 — `calculateSuccessRate` -/

lemma successRate_foldl (recipe : Recipe) (materials : List Material) (init : ℚ) :
    materials.foldl
      (fun successRate material =>
        if material.status = "Legendary" then successRate + recipe.qualityBonus
        else if material.status = "New" then successRate + recipe.qualityBonus * (1/2)
        else if material.status = "Used" then successRate + recipe.qualityBonus * (1/4)
        else successRate)
      init =
    init + (materials.map
      (fun m => recipe.qualityBonus * codeQualityMultiplier m.status)).sum := by
  induction materials generalizing init with
  | nil => simp
  | cons m t ih =>
    simp only [List.foldl_cons, List.map_cons, List.sum_cons, ih, codeQualityMultiplier]
    by_cases h1 : m.status = "Legendary"
    · simp only [if_pos h1]
      ring
    · by_cases h2 : m.status = "New"
      · simp only [if_neg h1, if_pos h2]
        ring
      · by_cases h3 : m.status = "Used"
        · simp only [if_neg h1, if_neg h2, if_pos h3]
          ring
        · simp only [if_neg h1, if_neg h2, if_neg h3]
          ring

/-- Claim C3 (amended): `calculateSuccessRate` starts from
`recipe.baseSuccessRate` and, for each supplied material, adds
`recipe.qualityBonus` scaled by the multiplier the code keys to the material's
status string — `1` for `"Legendary"`, `1/2` for `"New"`, `1/4` for `"Used"`,
and `0` for every other status, including the game's own tiers `"Rare"`,
`"Uncommon"`, `"Common"` and `"Damaged"` — before the final clamp is applied. -/
theorem calculateSuccessRate_eq_clamped_sum :
    ∀ (recipe : Recipe) (materials : List Material),
      calculateSuccessRate recipe materials =
        min 95 (max 5 (recipe.baseSuccessRate +
          (materials.map
            (fun m => recipe.qualityBonus * codeQualityMultiplier m.status)).sum)) := by
  intro recipe materials
  simp only [calculateSuccessRate]
  rw [successRate_foldl]

/-- Counterexample for claim C3 as stated: a `"Rare"` material contributes
nothing in the code (`50` stays `50`), while the spec's tier multipliers would
give it half the quality bonus (`60`). -/
theorem calculateSuccessRate_rare_no_bonus :
    calculateSuccessRate (Recipe.mk 50 20) [Material.mk "Rare"] = 50 ∧
    calculateSuccessRateSpec (Recipe.mk 50 20) [Material.mk "Rare"] = 60 ∧
    calculateSuccessRate (Recipe.mk 50 20) [Material.mk "Rare"] ≠
      calculateSuccessRateSpec (Recipe.mk 50 20) [Material.mk "Rare"] := by
  have h1 : calculateSuccessRate (Recipe.mk 50 20) [Material.mk "Rare"] = 50 := by
    simp only [calculateSuccessRate, List.foldl_cons, List.foldl_nil]
    rw [if_neg (by decide : ¬ ("Rare" : String) = "Legendary"),
      if_neg (by decide : ¬ ("Rare" : String) = "New"),
      if_neg (by decide : ¬ ("Rare" : String) = "Used")]
    rw [max_eq_right (by norm_num), min_eq_right (by norm_num)]
  have h2 : calculateSuccessRateSpec (Recipe.mk 50 20) [Material.mk "Rare"] = 60 := by
    simp only [calculateSuccessRateSpec, specQualityMultiplier, List.map_cons,
      List.map_nil, List.sum_cons, List.sum_nil]
    rw [if_neg (by decide : ¬ ("Rare" : String) = "Legendary")]
    simp only [if_true]
    rw [show (50 : ℚ) + (20 * (1/2) + 0) = 60 by norm_num]
    rw [max_eq_right (by norm_num), min_eq_right (by norm_num)]
  refine ⟨h1, h2, ?_⟩
  rw [h1, h2]
  norm_num

/-- Claim C4: for any recipe with `baseSuccessRate` in `[0, 100]` and any list
of supplied materials — however large or negative the accumulated bonuses —
the returned success rate lies in the closed interval `[5, 95]`. -/
theorem calculateSuccessRate_clamped (recipe : Recipe) (materials : List Material)
    (h0 : 0 ≤ recipe.baseSuccessRate) (h100 : recipe.baseSuccessRate ≤ 100) :
    5 ≤ calculateSuccessRate recipe materials ∧
    calculateSuccessRate recipe materials ≤ 95 := by
  simp only [calculateSuccessRate]
  constructor
  · exact le_min (by norm_num) (le_max_left 5 _)
  · exact min_le_left 95 _

/-- Witness for claim C4: a base rate of 0 with huge bonuses stays at most 95,
and a base rate of 100 with a negative bonus contribution stays at least 5. -/
theorem calculateSuccessRate_clamped_witness :
    (5 ≤ calculateSuccessRate (Recipe.mk 0 1000000) [Material.mk "Legendary"] ∧
      calculateSuccessRate (Recipe.mk 0 1000000) [Material.mk "Legendary"] ≤ 95) ∧
    (5 ≤ calculateSuccessRate (Recipe.mk 100 (-1000000)) [Material.mk "Legendary"] ∧
      calculateSuccessRate (Recipe.mk 100 (-1000000)) [Material.mk "Legendary"] ≤ 95) :=
  ⟨calculateSuccessRate_clamped (Recipe.mk 0 1000000) [Material.mk "Legendary"]
      (by norm_num) (by norm_num),
   calculateSuccessRate_clamped (Recipe.mk 100 (-1000000)) [Material.mk "Legendary"]
      (by norm_num) (by norm_num)⟩

/-! ## Claim C7 — the quick-sale floor -/

/-- Claim C7 (amended): whenever a floor percentage is supplied, the selling
price is at least `round(basePrice * floorPercentage)` — the code rounds the
floor before clamping — for every draw, base price and risk; in particular
`calculateRiskAdjustedSellingPrice draw 100 80 (some (1/10)) ≥ 10` for every
draw. -/
theorem sellingPrice_floor (draw basePrice risk floorPercentage : ℚ) :
    ((jsRound (basePrice * floorPercentage) : ℤ) : ℚ) ≤
      calculateRiskAdjustedSellingPrice draw basePrice risk (some floorPercentage) ∧
    10 ≤ calculateRiskAdjustedSellingPrice draw 100 80 (some (1/10)) := by
  constructor
  · simp only [calculateRiskAdjustedSellingPrice]
    exact le_max_right _ _
  · have h : ((jsRound ((100 : ℚ) * (1/10)) : ℤ) : ℚ) = 10 := by
      unfold jsRound
      norm_num
    calc (10 : ℚ) = ((jsRound ((100 : ℚ) * (1/10)) : ℤ) : ℚ) := h.symm
      _ ≤ _ := by
          simp only [calculateRiskAdjustedSellingPrice]
          exact le_max_right _ _

/-- Counterexample for claim C7 as stated: at base price 109, risk 100, floor
percentage `199/200` and draw 0 (all within the claimed ranges), the selling
price is 108, strictly below `basePrice * floorPercentage = 108.455`. -/
theorem sellingPrice_floor_counterexample :
    calculateRiskAdjustedSellingPrice 0 109 100 (some (199/200)) = 108 ∧
    calculateRiskAdjustedSellingPrice 0 109 100 (some (199/200)) <
      109 * (199/200) := by
  have h : calculateRiskAdjustedSellingPrice 0 109 100 (some (199/200)) = 108 := by
    simp only [calculateRiskAdjustedSellingPrice]
    rw [if_pos (by norm_num)]
    unfold jsRound
    have h1 : ⌊(109 : ℚ) * (1 - 100 / 100 * (3/10)) + 1/2⌋ = 76 := by norm_num
    have h2 : ⌊(109 : ℚ) * (199/200) + 1/2⌋ = 108 := by norm_num
    rw [h1, h2]
    push_cast
    rw [max_eq_right (by norm_num : (1 : ℚ) ≤ 76),
      max_eq_right (by norm_num : (76 : ℚ) ≤ 108)]
  exact ⟨h, by rw [h]; norm_num⟩

/-! ## Claim C2 — boundedness of `calculateDailyPrice` -/

lemma max_jsRound_bounds {x : ℚ} (hl : (677/8 : ℚ) < x) (hu : x < 881/8) :
    85 ≤ max 1 ((jsRound x : ℤ) : ℚ) ∧ max 1 ((jsRound x : ℤ) : ℚ) ≤ 115 := by
  have h85 : (85 : ℤ) ≤ jsRound x := by
    unfold jsRound
    rw [Int.le_floor]
    push_cast
    linarith
  have h110 : jsRound x ≤ 110 := by
    have h : ⌊x + 1/2⌋ < 111 := by
      rw [Int.floor_lt]
      push_cast
      linarith
    unfold jsRound
    omega
  constructor
  · have h : (85 : ℚ) ≤ ((jsRound x : ℤ) : ℚ) := by exact_mod_cast h85
    exact le_trans h (le_max_right 1 _)
  · apply max_le (by norm_num)
    have h : ((jsRound x : ℤ) : ℚ) ≤ 110 := by exact_mod_cast h110
    linarith

lemma exists_int_max_one (j : ℤ) :
    ∃ k : ℤ, 1 ≤ k ∧ max 1 ((j : ℚ)) = (k : ℚ) :=
  ⟨max 1 j, le_max_left 1 j, by push_cast; rfl⟩

/-- Claim C2: for every itemId and itemName,
`calculateDailyPrice 100 5 itemId itemName 0.15` lies within `[85, 115]`
(whatever values `Math.sin` takes in `[-1, 1]`); in particular the instance at
`itemId = 1`, `itemName = "X"` lies in that interval and is at least 1; and for
every positive base price and every day at least 1 the result is an integer at
least 1. -/
theorem dailyPrice_bounded (sin : ℚ → ℚ) (hsin : ∀ x, -1 ≤ sin x ∧ sin x ≤ 1) :
    (∀ (itemId : ItemId) (itemName : String),
        85 ≤ calculateDailyPrice sin 100 5 itemId itemName (3/20) ∧
        calculateDailyPrice sin 100 5 itemId itemName (3/20) ≤ 115) ∧
    1 ≤ calculateDailyPrice sin 100 5 (ItemId.num 1) "X" (3/20) ∧
    (∀ (basePrice currentDay : ℚ) (itemId : ItemId) (itemName : String)
        (fluctuationRange : ℚ), 0 < basePrice → 1 ≤ currentDay →
        ∃ k : ℤ, 1 ≤ k ∧
          calculateDailyPrice sin basePrice currentDay itemId itemName
            fluctuationRange = (k : ℚ)) := by
  have main : ∀ (itemId : ItemId) (itemName : String),
      85 ≤ calculateDailyPrice sin 100 5 itemId itemName (3/20) ∧
      calculateDailyPrice sin 100 5 itemId itemName (3/20) ≤ 115 := by
    intro itemId itemName
    simp only [calculateDailyPrice]
    rw [if_neg (by norm_num : ¬ (100 : ℚ) ≤ 0), if_neg (by norm_num : ¬ (5 : ℚ) < 1)]
    obtain ⟨h2l, h2u⟩ := seededRandom_draw_bounds
      (seededRandomStep (generateItemSeed itemId itemName 100 + 5 * 7919))
    obtain ⟨h3l, h3u⟩ := seededRandom_draw_bounds
      (seededRandomStep (seededRandomStep
        (generateItemSeed itemId itemName 100 + 5 * 7919)))
    obtain ⟨hsl, hsu⟩ := hsin
      ((5 + seededRandomStep (generateItemSeed itemId itemName 100 + 5 * 7919)
          / 233280 * 10) * (1/10))
    refine max_jsRound_bounds ?_ ?_ <;> linarith
  refine ⟨main, ?_, ?_⟩
  · have h := (main (ItemId.num 1) "X").1
    linarith
  · intro basePrice currentDay itemId itemName fluctuationRange hb hd
    simp only [calculateDailyPrice]
    rw [if_neg (not_le.mpr hb), if_neg (not_lt.mpr hd)]
    exact exists_int_max_one _

/-- Witness for claim C2 with the zero function standing in for `Math.sin`. -/
theorem dailyPrice_bounded_witness :
    85 ≤ calculateDailyPrice (fun _ => 0) 100 5 (ItemId.num 1) "X" (3/20) :=
  ((dailyPrice_bounded (fun _ => 0)
      (fun _ => ⟨by norm_num, by norm_num⟩)).1 (ItemId.num 1) "X").1

/-! ## Claims C9 and C10 — the price-history window -/

instance : IsTotal PriceEntry (fun a b => a.day ≤ b.day) :=
  ⟨fun a b => le_total a.day b.day⟩

instance : IsTrans PriceEntry (fun a b => a.day ≤ b.day) :=
  ⟨fun _ _ _ hab hbc => le_trans hab hbc⟩

lemma findIndex_eq_none_iff (p : PriceEntry → Bool) (l : List PriceEntry) :
    findIndex p l = none ↔ ∀ e ∈ l, p e = false := by
  induction l with
  | nil => simp [findIndex]
  | cons a t ih =>
    by_cases h : p a
    · simp [findIndex, h]
    · simp [findIndex, h, Option.map_eq_none', ih, eq_false_of_ne_true h]

lemma map_day_set (l : List PriceEntry) (i : ℕ) (e : PriceEntry) (price : ℚ)
    (he : l.get? i = some e) :
    (l.set i (PriceEntry.mk e.day price)).map PriceEntry.day = l.map PriceEntry.day := by
  induction l generalizing i with
  | nil => simp at he
  | cons a t ih =>
    cases i with
    | zero =>
      rw [List.get?_cons_zero] at he
      injection he with he
      subst he
      rfl
    | succ n =>
      rw [List.get?_cons_succ] at he
      simp only [List.set, List.map_cons]
      rw [ih n he]

/-- A list sorted by day whose days are distinct is strictly sorted by day. -/
lemma nodup_day_strict {l : List PriceEntry}
    (hs : List.Sorted (fun a b : PriceEntry => a.day ≤ b.day) l)
    (hn : (l.map PriceEntry.day).Nodup) :
    l.Pairwise (fun a b => a.day < b.day) := by
  induction l with
  | nil => exact List.Pairwise.nil
  | cons a t ih =>
    rw [List.sorted_cons] at hs
    simp only [List.map_cons, List.nodup_cons] at hn
    refine List.Pairwise.cons (fun b hb => ?_) (ih hs.2 hn.2)
    rcases lt_or_eq_of_le (hs.1 b hb) with h | h
    · exact h
    · have hmem : a.day ∈ t.map PriceEntry.day := by
        rw [h]
        exact List.mem_map_of_mem PriceEntry.day hb
      exact absurd hmem hn.1

lemma pairwise_lt_day_nodup {l : List PriceEntry}
    (h : l.Pairwise (fun a b => a.day < b.day)) :
    (l.map PriceEntry.day).Nodup :=
  List.pairwise_map.mpr (h.imp fun hab => ne_of_lt hab)

lemma map_replace_id {t : List PriceEntry} {day : ℚ} (h : ∀ e ∈ t, e.day ≠ day)
    (price : ℚ) :
    t.map (fun e => if e.day = day then PriceEntry.mk e.day price else e) = t := by
  induction t with
  | nil => rfl
  | cons a t ih =>
    rw [List.map_cons, if_neg (h a (List.mem_cons_self a t)),
      ih fun e he => h e (List.mem_cons_of_mem a he)]

lemma addOrUpdateEntry_of_not_mem (entries : List PriceEntry) (day price : ℚ)
    (h : ∀ e ∈ entries, e.day ≠ day) :
    addOrUpdateEntry entries day price = entries ++ [PriceEntry.mk day price] := by
  unfold addOrUpdateEntry
  have hnone : findIndex (fun e => e.day == day) entries = none := by
    rw [findIndex_eq_none_iff]
    intro e he
    exact beq_eq_false_iff_ne.mpr (h e he)
  rw [hnone]

lemma addOrUpdateEntry_cons_of_ne (a : PriceEntry) (t : List PriceEntry)
    (day price : ℚ) (ha : (a.day == day) = false) :
    addOrUpdateEntry (a :: t) day price = a :: addOrUpdateEntry t day price := by
  unfold addOrUpdateEntry
  simp only [findIndex, ha, Bool.false_eq_true, if_false]
  cases hf : findIndex (fun e => e.day == day) t with
  | none => simp
  | some i =>
    simp only [Option.map_some']
    rw [List.get?_cons_succ]
    cases hg : t.get? i with
    | none => simp
    | some e => simp [List.set]

lemma addOrUpdateEntry_of_mem (entries : List PriceEntry) (day price : ℚ)
    (hn : (entries.map PriceEntry.day).Nodup) (hm : day ∈ entries.map PriceEntry.day) :
    addOrUpdateEntry entries day price =
      entries.map (fun e => if e.day = day then PriceEntry.mk e.day price else e) := by
  induction entries with
  | nil => simp at hm
  | cons a t ih =>
    simp only [List.map_cons, List.nodup_cons] at hn
    by_cases ha : a.day = day
    · have hb : (a.day == day) = true := beq_iff_eq.mpr ha
      unfold addOrUpdateEntry
      simp only [findIndex, hb, if_true, List.get?_cons_zero]
      have ht : ∀ e ∈ t, e.day ≠ day := by
        intro e he heq
        apply hn.1
        rw [ha, ← heq]
        exact List.mem_map_of_mem PriceEntry.day he
      rw [List.map_cons, if_pos ha, map_replace_id ht]
      rfl
    · have hb : (a.day == day) = false := beq_eq_false_iff_ne.mpr ha
      have hm' : day ∈ t.map PriceEntry.day := by
        simp only [List.map_cons, List.mem_cons] at hm
        rcases hm with h | h
        · exact absurd h.symm ha
        · exact h
      rw [addOrUpdateEntry_cons_of_ne a t day price hb, ih hn.2 hm',
        List.map_cons, if_neg ha]

lemma addOrUpdateEntry_days_nodup (entries : List PriceEntry) (day price : ℚ)
    (hn : (entries.map PriceEntry.day).Nodup) :
    ((addOrUpdateEntry entries day price).map PriceEntry.day).Nodup := by
  unfold addOrUpdateEntry
  split
  · split
    · rename_i e hg
      rw [map_day_set entries _ e price hg]
      exact hn
    · exact hn
  · rename_i hf
    have hday : ∀ e ∈ entries, e.day ≠ day := by
      intro e he
      exact beq_eq_false_iff_ne.mp ((findIndex_eq_none_iff _ _).mp hf e he)
    simp only [List.map_append, List.map_cons, List.map_nil]
    refine List.Nodup.append hn (List.nodup_singleton day) ?_
    rw [List.disjoint_singleton]
    intro hmem
    rcases List.mem_map.mp hmem with ⟨e, he, hday'⟩
    exact hday e he hday'

lemma updatePriceHistory_length_le (entries : List PriceEntry) (day price : ℚ) :
    (updatePriceHistory entries day price MAX_HISTORY_DAYS).length
      ≤ MAX_HISTORY_DAYS := by
  simp only [updatePriceHistory]
  split
  · rename_i h
    rw [List.length_drop]
    omega
  · rename_i h
    omega

lemma foldl_updatePriceHistory_length (calls : List (ℚ × ℚ)) :
    ∀ entries : List PriceEntry, calls ≠ [] →
      ((calls.foldl (fun h c => updatePriceHistory h c.1 c.2 MAX_HISTORY_DAYS)
          entries).length ≤ MAX_HISTORY_DAYS) := by
  induction calls with
  | nil => intro _ h; exact absurd rfl h
  | cons c rest ih =>
    intro entries _
    rw [List.foldl_cons]
    cases rest with
    | nil =>
      rw [List.foldl_nil]
      exact updatePriceHistory_length_le entries c.1 c.2
    | cons c2 r2 =>
      exact ih (updatePriceHistory entries c.1 c.2 MAX_HISTORY_DAYS) (by simp)

lemma updatePriceHistory_evicts (entries : List PriceEntry) (day price : ℚ)
    (hP : entries.Pairwise (fun a b => a.day < b.day))
    (hlen : entries.length = MAX_HISTORY_DAYS)
    (hday : ∀ e ∈ entries, e.day < day) :
    updatePriceHistory entries day price MAX_HISTORY_DAYS =
      entries.drop 1 ++ [PriceEntry.mk day price] := by
  simp only [updatePriceHistory]
  rw [addOrUpdateEntry_of_not_mem entries day price
    (fun e he => ne_of_lt (hday e he))]
  have hsorted : List.Sorted (fun a b : PriceEntry => a.day ≤ b.day)
      (entries ++ [PriceEntry.mk day price]) := by
    show List.Pairwise _ _
    rw [List.pairwise_append]
    refine ⟨hP.imp le_of_lt, List.pairwise_singleton _ _, ?_⟩
    intro a ha b hb
    rw [List.mem_singleton] at hb
    subst hb
    exact le_of_lt (hday a ha)
  rw [List.Sorted.insertionSort_eq hsorted]
  have hlen2 : (entries ++ [PriceEntry.mk day price]).length = 11 := by
    rw [List.length_append, hlen]
    rfl
  rw [hlen2]
  rw [if_pos (by norm_num [MAX_HISTORY_DAYS])]
  rw [show 11 - MAX_HISTORY_DAYS = 1 from rfl]
  exact List.drop_append_of_le_length (by rw [hlen]; norm_num [MAX_HISTORY_DAYS])

/-- Claim C9: starting from any stored history, after any nonempty sequence of
`updatePriceHistory` calls at most `MAX_HISTORY_DAYS = 10` entries remain; when
a new day later than all ten stored days is inserted into a full, strictly
sorted window, the oldest entry is evicted and the ten most recent days are
retained; and after eleven consecutive day-advances from an empty history
exactly the last ten `(day, price)` pairs remain. -/
theorem priceHistory_window :
    (∀ (entries : List PriceEntry) (calls : List (ℚ × ℚ)), calls ≠ [] →
        ((calls.foldl (fun h c => updatePriceHistory h c.1 c.2 MAX_HISTORY_DAYS)
            entries).length ≤ MAX_HISTORY_DAYS)) ∧
    (∀ (entries : List PriceEntry) (day price : ℚ),
        entries.Pairwise (fun a b => a.day < b.day) →
        entries.length = MAX_HISTORY_DAYS →
        (∀ e ∈ entries, e.day < day) →
        updatePriceHistory entries day price MAX_HISTORY_DAYS =
          entries.drop 1 ++ [PriceEntry.mk day price]) ∧
    ([((1 : ℚ), (101 : ℚ)), (2, 102), (3, 103), (4, 104), (5, 105), (6, 106),
        (7, 107), (8, 108), (9, 109), (10, 110), (11, 111)].foldl
          (fun h c => updatePriceHistory h c.1 c.2 MAX_HISTORY_DAYS) [] =
      [PriceEntry.mk 2 102, PriceEntry.mk 3 103, PriceEntry.mk 4 104,
       PriceEntry.mk 5 105, PriceEntry.mk 6 106, PriceEntry.mk 7 107,
       PriceEntry.mk 8 108, PriceEntry.mk 9 109, PriceEntry.mk 10 110,
       PriceEntry.mk 11 111]) := by
  refine ⟨fun entries calls h => foldl_updatePriceHistory_length calls entries h,
    updatePriceHistory_evicts, ?_⟩
  decide

/-- Witness for claim C9 at concrete inputs: a single call on an empty history
stays within the window, and inserting day 11 into the full window of days
1–10 evicts day 1. -/
theorem priceHistory_window_witness :
    (([((1 : ℚ), (5 : ℚ))].foldl
        (fun h c => updatePriceHistory h c.1 c.2 MAX_HISTORY_DAYS) []).length
      ≤ MAX_HISTORY_DAYS) ∧
    updatePriceHistory
        [PriceEntry.mk 1 1, PriceEntry.mk 2 1, PriceEntry.mk 3 1,
         PriceEntry.mk 4 1, PriceEntry.mk 5 1, PriceEntry.mk 6 1,
         PriceEntry.mk 7 1, PriceEntry.mk 8 1, PriceEntry.mk 9 1,
         PriceEntry.mk 10 1] 11 7 MAX_HISTORY_DAYS =
      ([PriceEntry.mk 1 1, PriceEntry.mk 2 1, PriceEntry.mk 3 1,
        PriceEntry.mk 4 1, PriceEntry.mk 5 1, PriceEntry.mk 6 1,
        PriceEntry.mk 7 1, PriceEntry.mk 8 1, PriceEntry.mk 9 1,
        PriceEntry.mk 10 1].drop 1 ++ [PriceEntry.mk 11 7]) :=
  ⟨priceHistory_window.1 [] [((1 : ℚ), (5 : ℚ))] (by simp),
   priceHistory_window.2.1
     [PriceEntry.mk 1 1, PriceEntry.mk 2 1, PriceEntry.mk 3 1,
      PriceEntry.mk 4 1, PriceEntry.mk 5 1, PriceEntry.mk 6 1,
      PriceEntry.mk 7 1, PriceEntry.mk 8 1, PriceEntry.mk 9 1,
      PriceEntry.mk 10 1] 11 7 (by decide) (by decide) (by decide)⟩

/-- Claim C10: `updatePriceHistory` preserves the invariant that the stored
history is strictly sorted by day — hence it holds at most one entry per day,
the projected day list staying duplicate-free; and calling it for a day already
present in a window-sized history replaces that entry's price in place — the
result is the pointwise replacement, so no duplicate is appended and the length
is unchanged. -/
theorem updatePriceHistory_unique_sorted :
    (∀ (entries : List PriceEntry) (day price : ℚ) (maxDays : ℕ),
        entries.Pairwise (fun a b => a.day < b.day) →
        (updatePriceHistory entries day price maxDays).Pairwise
          (fun a b => a.day < b.day) ∧
        ((updatePriceHistory entries day price maxDays).map PriceEntry.day).Nodup) ∧
    (∀ (entries : List PriceEntry) (day price : ℚ),
        entries.Pairwise (fun a b => a.day < b.day) →
        entries.length ≤ MAX_HISTORY_DAYS →
        day ∈ entries.map PriceEntry.day →
        updatePriceHistory entries day price MAX_HISTORY_DAYS =
          entries.map (fun e => if e.day = day then PriceEntry.mk e.day price else e) ∧
        (updatePriceHistory entries day price MAX_HISTORY_DAYS).length
          = entries.length) := by
  constructor
  · intro entries day price maxDays hP
    have hstrict : (updatePriceHistory entries day price maxDays).Pairwise
        (fun a b => a.day < b.day) := by
      simp only [updatePriceHistory]
      have hnd := pairwise_lt_day_nodup hP
      have hu := addOrUpdateEntry_days_nodup entries day price hnd
      have hperm := List.perm_insertionSort (fun a b : PriceEntry => a.day ≤ b.day)
        (addOrUpdateEntry entries day price)
      have hnds : ((List.insertionSort (fun a b : PriceEntry => a.day ≤ b.day)
          (addOrUpdateEntry entries day price)).map PriceEntry.day).Nodup :=
        ((hperm.map PriceEntry.day).nodup_iff).mpr hu
      have hsort := List.sorted_insertionSort (fun a b : PriceEntry => a.day ≤ b.day)
        (addOrUpdateEntry entries day price)
      have hPs := nodup_day_strict hsort hnds
      split
      · exact List.Pairwise.sublist (List.drop_sublist _ _) hPs
      · exact hPs
    exact ⟨hstrict, pairwise_lt_day_nodup hstrict⟩
  · intro entries day price hP hlen hm
    have hnd := pairwise_lt_day_nodup hP
    have hfday : ∀ e : PriceEntry,
        (if e.day = day then PriceEntry.mk e.day price else e).day = e.day := by
      intro e
      by_cases h : e.day = day
      · rw [if_pos h]
      · rw [if_neg h]
    have hmain : updatePriceHistory entries day price MAX_HISTORY_DAYS =
        entries.map (fun e => if e.day = day then PriceEntry.mk e.day price else e) := by
      simp only [updatePriceHistory]
      rw [addOrUpdateEntry_of_mem entries day price hnd hm]
      have hPs : (entries.map
          (fun e => if e.day = day then PriceEntry.mk e.day price else e)).Pairwise
            (fun a b => a.day < b.day) := by
        rw [List.pairwise_map]
        refine hP.imp ?_
        intro a b hab
        simpa only [hfday] using hab
      have hs2 : List.Sorted (fun a b : PriceEntry => a.day ≤ b.day)
          (entries.map
            (fun e => if e.day = day then PriceEntry.mk e.day price else e)) :=
        hPs.imp le_of_lt
      rw [List.Sorted.insertionSort_eq hs2]
      rw [if_neg (by rw [List.length_map]; omega)]
    refine ⟨hmain, ?_⟩
    rw [hmain, List.length_map]

/-- Witness for claim C10 at concrete inputs: updating day 1 of the two-day
history `[(1, 5), (2, 6)]` keeps it strictly sorted and replaces the price in
place. -/
theorem updatePriceHistory_unique_sorted_witness :
    (updatePriceHistory [PriceEntry.mk 1 5, PriceEntry.mk 2 6] 1 9
        MAX_HISTORY_DAYS).Pairwise (fun a b => a.day < b.day) ∧
    updatePriceHistory [PriceEntry.mk 1 5, PriceEntry.mk 2 6] 1 9 MAX_HISTORY_DAYS =
      [PriceEntry.mk 1 5, PriceEntry.mk 2 6].map
        (fun e => if e.day = 1 then PriceEntry.mk e.day 9 else e) :=
  ⟨(updatePriceHistory_unique_sorted.1 [PriceEntry.mk 1 5, PriceEntry.mk 2 6]
      1 9 MAX_HISTORY_DAYS (by decide)).1,
   (updatePriceHistory_unique_sorted.2 [PriceEntry.mk 1 5, PriceEntry.mk 2 6]
      1 9 (by decide) (by decide) (by decide)).1⟩

end BrowserGame
